import Mathlib

set_option maxRecDepth 8000

/-!
Shallow embedding of the End-of-Turn speech segmentation engine of
src/python-services/services/audio_processing.py (class RealTimeVADStreamer).

Bytes are modelled as Nat, byte strings as List Nat.  The external webrtcvad
classifier (self.vad.is_speech) is stateless and deterministic, so it is
modelled as an explicit function parameter classify : List Nat -> Option Bool;
some b is a normal speech/silence decision, none models the classifier raising
an exception (which the try/except of process_chunk catches).
-/

/-- Field set at line 40: self.eot_silence_threshold = 1.5 (seconds). -/
def eot_silence_threshold : ℚ := 1.5

/-- Line 41: self.eot_frames_threshold = int(self.eot_silence_threshold * 1000
/ frame_duration).  Python computes a float quotient and truncates it with
int(); the float arithmetic is exact to far below one unit here (1.5 * 1000
is the exact float 1500.0 and the quotient has relative error below 2^-52),
so truncation of the exact rational quotient is a faithful model. -/
def eot_frames_threshold (frame_duration : ℕ) : ℕ :=
  ⌊eot_silence_threshold * 1000 / (frame_duration : ℚ)⌋₊

/-- Line 28: self.frame_size = int(sample_rate * frame_duration / 1000),
samples per frame (same exact-float argument as for the threshold). -/
def frame_size (sample_rate frame_duration : ℕ) : ℕ :=
  ⌊((sample_rate : ℚ) * (frame_duration : ℚ)) / 1000⌋₊

/-- The immutable per-session configuration of RealTimeVADStreamer.
The aggressiveness knob only parametrises the external classifier, which is
already abstracted as a function, so it does not appear here. -/
structure VADConfig where
  frame_size : ℕ
  eot_frames_threshold : ℕ
  deriving Repr, DecidableEq

/-- The configuration built by init (lines 26-41) from its arguments. -/
def mkStreamer (sample_rate frame_duration : ℕ) : VADConfig :=
  ⟨frame_size sample_rate frame_duration, eot_frames_threshold frame_duration⟩

/-- The mutable session state: lines 34-39. -/
structure VADState where
  audio_buffer : List ℕ
  silence_frames : ℕ
  speech_frames : ℕ
  in_speech : Bool
  deriving Repr, DecidableEq

/-- The state as set up by init (lines 34-39), which is also exactly what
reset_state (lines 104-109) restores. -/
def initState : VADState := ⟨[], 0, 0, false⟩

/-- Lines 76-83: the counter update for one classified frame.
Speech: speech_frames += 1; silence_frames = 0; in_speech = True.
Silence: silence_frames += 1 (speech_frames and in_speech are untouched).
Returns (silence_frames, speech_frames, in_speech). -/
def updateCounters (is_speech : Bool) (silence speech : ℕ) (inSp : Bool) :
    ℕ × ℕ × Bool :=
  if is_speech then (0, speech + 1, true) else (silence + 1, speech, inSp)

/-- The byte slice self.audio_buffer[i*fb : i*fb + fb] of lines 65-67,
where fb = frame_size * 2 is the frame byte size. -/
def sliceAt (fb : ℕ) (buf : List ℕ) (i : ℕ) : List ℕ :=
  (buf.drop (i * fb)).take fb

/-- Outcome of the frame loop (lines 63-92) of process_chunk. -/
inductive LoopOut where
  | finished (silence speech : ℕ) (inSp : Bool)
  | eotFired (payload : List ℕ)
  | excRaised (silence speech : ℕ) (inSp : Bool)
  deriving Repr, DecidableEq

/-- The loop for i in range(complete_frames) (lines 63-92).  buf is
self.audio_buffer after the extend of line 58 (the buffer is not mutated
during the loop), i the loop index, r the number of remaining iterations,
and silence, speech, inSp the mutable counter fields.  Besides the outcome
the function returns the trace of byte slices extracted at line 67, each of
which is passed to the classifier unless the guard of lines 70-71 skips it.
An eotFired outcome carries bytes(self.audio_buffer) of line 90; an
excRaised outcome carries the counters as they were before the frame whose
classification raised. -/
def vadLoop (cfg : VADConfig) (classify : List ℕ → Option Bool) (buf : List ℕ) :
    ℕ → ℕ → ℕ → ℕ → Bool → LoopOut × List (List ℕ)
  | _, 0, silence, speech, inSp => (.finished silence speech inSp, [])
  | i, r + 1, silence, speech, inSp =>
    let frame_bytes := sliceAt (cfg.frame_size * 2) buf i
    if frame_bytes.length ≠ cfg.frame_size * 2 then
      -- lines 70-71: skip classification of a malformed slice
      let rest := vadLoop cfg classify buf (i + 1) r silence speech inSp
      (rest.1, frame_bytes :: rest.2)
    else
      match classify frame_bytes with
      | none => (.excRaised silence speech inSp, [frame_bytes])
      | some is_speech =>
        match updateCounters is_speech silence speech inSp with
        | (silence', speech', inSp') =>
          -- lines 86-92: End-of-Turn check
          if inSp' = true ∧ cfg.eot_frames_threshold ≤ silence' then
            (.eotFired buf, [frame_bytes])
          else
            let rest := vadLoop cfg classify buf (i + 1) r silence' speech' inSp'
            (rest.1, frame_bytes :: rest.2)

/-- process_chunk (lines 46-102).  Returns ((new state, optional EoT
payload), trace of extracted slices).  The except branch of lines 100-102
corresponds to the excRaised outcome: the error is swallowed, None is
returned, and the state keeps every mutation made before the raise (the
extended buffer in particular; lines 94-96 never run, so nothing is removed
from it).  On EoT (lines 89-92) the whole extended buffer is returned and
the state is reset.  Otherwise lines 94-96 drop the processed frame bytes
from the front of the buffer. -/
def process_chunk (cfg : VADConfig) (classify : List ℕ → Option Bool)
    (st : VADState) (chunk_data : List ℕ) :
    (VADState × Option (List ℕ)) × List (List ℕ) :=
  let buf := st.audio_buffer ++ chunk_data
  let complete_frames := buf.length / (cfg.frame_size * 2)
  match vadLoop cfg classify buf 0 complete_frames
      st.silence_frames st.speech_frames st.in_speech with
  | (.eotFired payload, tr) => ((initState, some payload), tr)
  | (.excRaised silence speech inSp, tr) =>
    ((⟨buf, silence, speech, inSp⟩, none), tr)
  | (.finished silence speech inSp, tr) =>
    ((⟨buf.drop (complete_frames * (cfg.frame_size * 2)), silence, speech, inSp⟩,
      none), tr)

/-- The monitoring snapshot returned by get_state (lines 112-120). -/
structure VADStateView where
  buffer_size : ℕ
  silence_frames : ℕ
  speech_frames : ℕ
  in_speech : Bool
  eot_threshold : ℕ
  deriving Repr, DecidableEq

/-- get_state (lines 112-120). -/
def get_state (cfg : VADConfig) (st : VADState) : VADStateView :=
  ⟨st.audio_buffer.length, st.silence_frames, st.speech_frames,
   st.in_speech, cfg.eot_frames_threshold⟩

/-- force_eot (lines 122-137): if self.in_speech and len(self.audio_buffer)
> 0 the buffer is returned and the state reset; otherwise the state is reset
and None returned. -/
def force_eot (st : VADState) : VADState × Option (List ℕ) :=
  if st.in_speech = true ∧ 0 < st.audio_buffer.length then
    (initState, some st.audio_buffer)
  else
    (initState, none)

/-- Drives one session: feeds the chunks through process_chunk in order
(the serialized per-connection delivery of the websocket loop in main.py),
collecting the payload returned by each call and the concatenation of all
per-call classification traces. -/
def runChunks (cfg : VADConfig) (classify : List ℕ → Option Bool) :
    VADState → List (List ℕ) → VADState × List (Option (List ℕ)) × List (List ℕ)
  | st, [] => (st, [], [])
  | st, c :: cs =>
    match process_chunk cfg classify st c with
    | ((st', out), tr) =>
      match runChunks cfg classify st' cs with
      | (stFin, outs, trs) => (stFin, out :: outs, tr ++ trs)

/-- The consecutive fixed-size frame windows of a byte string, in order:
window i is the slice starting at byte i*fb, and there are length / fb
complete windows. -/
def slicesFrom (fb : ℕ) (buf : List ℕ) (i r : ℕ) : List (List ℕ) :=
  (List.range r).map (fun j => sliceAt fb buf (i + j))

/-- Slicing a whole byte string into its complete fixed-size frame windows. -/
def chunkFrames (fb : ℕ) (s : List ℕ) : List (List ℕ) :=
  slicesFrom fb s 0 (s.length / fb)

/-- A simple concrete classifier used to instantiate theorems: a frame is
speech exactly when its first byte is 1.  (It stands in for the webrtcvad
decisions on the corresponding concrete frames.) -/
def demoClassify : List ℕ → Option Bool :=
  fun f => some (f.headD 0 == 1)

-- ===================================================================
-- Basic lemmas
-- ===================================================================

theorem vadLoop_zero (cfg : VADConfig) (classify : List ℕ → Option Bool)
    (buf : List ℕ) (i silence speech : ℕ) (inSp : Bool) :
    vadLoop cfg classify buf i 0 silence speech inSp =
      (.finished silence speech inSp, []) := rfl

theorem vadLoop_succ (cfg : VADConfig) (classify : List ℕ → Option Bool)
    (buf : List ℕ) (i r silence speech : ℕ) (inSp : Bool) :
    vadLoop cfg classify buf i (r + 1) silence speech inSp =
      (let frame_bytes := sliceAt (cfg.frame_size * 2) buf i;
      if frame_bytes.length ≠ cfg.frame_size * 2 then
        let rest := vadLoop cfg classify buf (i + 1) r silence speech inSp
        (rest.1, frame_bytes :: rest.2)
      else
        match classify frame_bytes with
        | none => (.excRaised silence speech inSp, [frame_bytes])
        | some is_speech =>
          match updateCounters is_speech silence speech inSp with
          | (silence', speech', inSp') =>
            if inSp' = true ∧ cfg.eot_frames_threshold ≤ silence' then
              (.eotFired buf, [frame_bytes])
            else
              let rest := vadLoop cfg classify buf (i + 1) r silence' speech' inSp'
              (rest.1, frame_bytes :: rest.2)) := rfl

theorem length_sliceAt (fb : ℕ) (buf : List ℕ) (i : ℕ)
    (h : (i + 1) * fb ≤ buf.length) : (sliceAt fb buf i).length = fb := by
  rw [Nat.succ_mul] at h
  simp only [sliceAt, List.length_take, List.length_drop]
  omega

theorem slicesFrom_succ (fb : ℕ) (buf : List ℕ) (i r : ℕ) :
    slicesFrom fb buf i (r + 1) =
      sliceAt fb buf i :: slicesFrom fb buf (i + 1) r := by
  simp only [slicesFrom, List.range_succ_eq_map, List.map_cons, Nat.add_zero,
    List.map_map]
  refine congrArg _ (List.map_congr_left fun a _ => ?_)
  simp only [Function.comp_apply]
  congr 1
  omega

theorem vadLoop_finished_trace (cfg : VADConfig) (classify : List ℕ → Option Bool)
    (buf : List ℕ) : ∀ r i silence speech inSp s' p' b' tr,
    vadLoop cfg classify buf i r silence speech inSp = (.finished s' p' b', tr) →
    tr = slicesFrom (cfg.frame_size * 2) buf i r := by
  intro r
  induction r with
  | zero =>
    intro i silence speech inSp s' p' b' tr h
    rw [vadLoop_zero] at h
    simp only [Prod.mk.injEq] at h
    rw [← h.2]
    rfl
  | succ r ih =>
    intro i silence speech inSp s' p' b' tr h
    rw [vadLoop_succ] at h
    simp only at h
    split at h
    · -- guard branch: malformed slice skipped
      simp only [Prod.mk.injEq] at h
      have hrec : vadLoop cfg classify buf (i + 1) r silence speech inSp =
          (.finished s' p' b',
            (vadLoop cfg classify buf (i + 1) r silence speech inSp).2) := by
        rw [← h.1]
      rw [← h.2, ih (i + 1) silence speech inSp s' p' b' _ hrec, slicesFrom_succ]
    · split at h
      · -- classifier raised: excRaised cannot equal finished
        simp at h
      · -- some is_speech
        split at h
        · -- EoT fired: eotFired cannot equal finished
          simp at h
        · simp only [Prod.mk.injEq] at h
          have hrec := ih (i + 1) _ _ _ s' p' b' _ (by rw [← h.1])
          rw [← h.2, hrec, slicesFrom_succ]

theorem vadLoop_eot (cfg : VADConfig) (classify : List ℕ → Option Bool)
    (buf : List ℕ) : ∀ r i silence speech inSp pl tr,
    vadLoop cfg classify buf i r silence speech inSp = (.eotFired pl, tr) →
    pl = buf ∧ ∃ j, 1 ≤ j ∧ j ≤ r ∧ tr = slicesFrom (cfg.frame_size * 2) buf i j := by
  intro r
  induction r with
  | zero =>
    intro i silence speech inSp pl tr h
    rw [vadLoop_zero] at h
    simp at h
  | succ r ih =>
    intro i silence speech inSp pl tr h
    rw [vadLoop_succ] at h
    simp only at h
    split at h
    · simp only [Prod.mk.injEq] at h
      obtain ⟨hpl, hj, hj1, hjr, htr⟩ := ih (i + 1) _ _ _ pl _ (by rw [← h.1])
      refine ⟨hpl, hj + 1, by omega, by omega, ?_⟩
      rw [← h.2, htr, slicesFrom_succ]
    · split at h
      · simp at h
      · split at h
        · -- the EoT branch itself
          simp only [Prod.mk.injEq] at h
          refine ⟨(LoopOut.eotFired.inj h.1).symm, 1, le_refl 1, by omega, ?_⟩
          rw [← h.2]
          rfl
        · simp only [Prod.mk.injEq] at h
          obtain ⟨hpl, hj, hj1, hjr, htr⟩ := ih (i + 1) _ _ _ pl _ (by rw [← h.1])
          refine ⟨hpl, hj + 1, by omega, by omega, ?_⟩
          rw [← h.2, htr, slicesFrom_succ]

theorem vadLoop_mem_trace (cfg : VADConfig) (classify : List ℕ → Option Bool)
    (buf : List ℕ) : ∀ r i silence speech inSp f,
    f ∈ (vadLoop cfg classify buf i r silence speech inSp).2 →
    ∃ k, k < r ∧ f = sliceAt (cfg.frame_size * 2) buf (i + k) := by
  intro r
  induction r with
  | zero =>
    intro i silence speech inSp f hf
    rw [vadLoop_zero] at hf
    simp at hf
  | succ r ih =>
    intro i silence speech inSp f hf
    rw [vadLoop_succ] at hf
    simp only at hf
    split at hf
    · simp only [List.mem_cons] at hf
      rcases hf with hf | hf
      · exact ⟨0, by omega, by simpa using hf⟩
      · obtain ⟨k, hk, hfk⟩ := ih (i + 1) _ _ _ f hf
        exact ⟨k + 1, by omega, by rw [hfk]; congr 1; omega⟩
    · split at hf
      · simp only [List.mem_singleton] at hf
        exact ⟨0, by omega, by simpa using hf⟩
      · split at hf
        · simp only [List.mem_singleton] at hf
          exact ⟨0, by omega, by simpa using hf⟩
        · simp only [List.mem_cons] at hf
          rcases hf with hf | hf
          · exact ⟨0, by omega, by simpa using hf⟩
          · obtain ⟨k, hk, hfk⟩ := ih (i + 1) _ _ _ f hf
            exact ⟨k + 1, by omega, by rw [hfk]; congr 1; omega⟩

theorem vadLoop_no_exc (cfg : VADConfig) (classify : List ℕ → Option Bool)
    (buf : List ℕ) (htot : ∀ g, classify g ≠ none) :
    ∀ r i silence speech inSp s' p' b',
    (vadLoop cfg classify buf i r silence speech inSp).1 ≠ .excRaised s' p' b' := by
  intro r
  induction r with
  | zero =>
    intro i silence speech inSp s' p' b'
    rw [vadLoop_zero]
    simp
  | succ r ih =>
    intro i silence speech inSp s' p' b'
    rw [vadLoop_succ]
    simp only
    split
    · exact ih (i + 1) _ _ _ s' p' b'
    · split
      · rename_i heq
        exact absurd heq (htot _)
      · split
        · simp
        · exact ih (i + 1) _ _ _ s' p' b'

theorem vadLoop_all_silence (cfg : VADConfig) (classify : List ℕ → Option Bool)
    (buf : List ℕ) (hsil : ∀ g, classify g = some false) :
    ∀ r i silence speech,
    ∃ s' p' tr, vadLoop cfg classify buf i r silence speech false =
      (.finished s' p' false, tr) := by
  intro r
  induction r with
  | zero =>
    intro i silence speech
    exact ⟨silence, speech, [], rfl⟩
  | succ r ih =>
    intro i silence speech
    rw [vadLoop_succ]
    simp only
    split
    · obtain ⟨s', p', tr, hrec⟩ := ih (i + 1) silence speech
      exact ⟨s', p', _ :: (vadLoop cfg classify buf (i + 1) r silence speech false).2,
        by rw [hrec]⟩
    · rw [hsil (sliceAt (cfg.frame_size * 2) buf i)]
      simp only [updateCounters, Bool.false_eq_true, if_false]
      split
      · rename_i hcond
        simp at hcond
      · obtain ⟨s', p', tr, hrec⟩ := ih (i + 1) (silence + 1) speech
        exact ⟨s', p',
          _ :: (vadLoop cfg classify buf (i + 1) r (silence + 1) speech false).2,
          by rw [hrec]⟩

theorem process_chunk_some (cfg : VADConfig) (classify : List ℕ → Option Bool)
    (st : VADState) (c : List ℕ) (p : List ℕ)
    (h : (process_chunk cfg classify st c).1.2 = some p) :
    (process_chunk cfg classify st c).1.1 = initState ∧
    p = st.audio_buffer ++ c ∧
    ∃ j, 1 ≤ j ∧ j ≤ (st.audio_buffer ++ c).length / (cfg.frame_size * 2) ∧
      (process_chunk cfg classify st c).2 =
        slicesFrom (cfg.frame_size * 2) (st.audio_buffer ++ c) 0 j := by
  cases hv : vadLoop cfg classify (st.audio_buffer ++ c) 0
      ((st.audio_buffer ++ c).length / (cfg.frame_size * 2))
      st.silence_frames st.speech_frames st.in_speech with
  | mk out tr =>
    cases out with
    | finished s2 p2 b2 => simp only [process_chunk] at h; rw [hv] at h; simp at h
    | excRaised s2 p2 b2 => simp only [process_chunk] at h; rw [hv] at h; simp at h
    | eotFired pl =>
      obtain ⟨hpl, j, hj1, hjle, htr⟩ :=
        vadLoop_eot cfg classify _ _ _ _ _ _ pl tr hv
      have hres : process_chunk cfg classify st c = ((initState, some pl), tr) := by
        simp only [process_chunk]
        rw [hv]
      rw [hres] at h ⊢
      simp only [Option.some.injEq] at h
      exact ⟨rfl, h ▸ hpl, j, hj1, hjle, htr⟩

theorem process_chunk_none_total (cfg : VADConfig) (classify : List ℕ → Option Bool)
    (st : VADState) (c : List ℕ) (htot : ∀ g, classify g ≠ none)
    (h : (process_chunk cfg classify st c).1.2 = none) :
    (process_chunk cfg classify st c).2 =
      chunkFrames (cfg.frame_size * 2) (st.audio_buffer ++ c) ∧
    (process_chunk cfg classify st c).1.1.audio_buffer =
      (st.audio_buffer ++ c).drop
        ((st.audio_buffer ++ c).length / (cfg.frame_size * 2) * (cfg.frame_size * 2)) := by
  cases hv : vadLoop cfg classify (st.audio_buffer ++ c) 0
      ((st.audio_buffer ++ c).length / (cfg.frame_size * 2))
      st.silence_frames st.speech_frames st.in_speech with
  | mk out tr =>
    cases out with
    | eotFired pl => simp only [process_chunk] at h; rw [hv] at h; simp at h
    | excRaised s2 p2 b2 =>
      exact absurd (by rw [hv]) (vadLoop_no_exc cfg classify _ htot _ _ _ _ _ s2 p2 b2)
    | finished s2 p2 b2 =>
      have htr := vadLoop_finished_trace cfg classify _ _ _ _ _ _ s2 p2 b2 _ hv
      have hres : process_chunk cfg classify st c =
          ((⟨(st.audio_buffer ++ c).drop
              ((st.audio_buffer ++ c).length / (cfg.frame_size * 2) * (cfg.frame_size * 2)),
            s2, p2, b2⟩, none), tr) := by
        simp only [process_chunk]
        rw [hv]
      rw [hres]
      exact ⟨htr, rfl⟩

theorem sliceAt_full (fb : ℕ) (f : List ℕ) (hf : f.length = fb) :
    sliceAt fb f 0 = f := by
  simp only [sliceAt, Nat.zero_mul, List.drop_zero]
  rw [← hf, List.take_length]

theorem vadLoop_single_frame (cfg : VADConfig) (classify : List ℕ → Option Bool)
    (f : List ℕ) (silence speech : ℕ) (inSp : Bool) (v : Bool)
    (hf : f.length = cfg.frame_size * 2) (hc : classify f = some v) :
    vadLoop cfg classify f 0 1 silence speech inSp =
      (match updateCounters v silence speech inSp with
       | (silence', speech', inSp') =>
        if inSp' = true ∧ cfg.eot_frames_threshold ≤ silence' then
          (.eotFired f, [f])
        else (.finished silence' speech' inSp', [f])) := by
  rw [vadLoop_succ]
  simp only [sliceAt_full (cfg.frame_size * 2) f hf, hf, ne_eq,
    not_true_eq_false, if_false, hc, vadLoop_zero]

theorem process_chunk_speech_frame (cfg : VADConfig)
    (classify : List ℕ → Option Bool) (f : List ℕ) (silence speech : ℕ)
    (inSp : Bool) (hfs : 0 < cfg.frame_size) (hf : f.length = cfg.frame_size * 2)
    (hc : classify f = some true) (hT : 0 < cfg.eot_frames_threshold) :
    process_chunk cfg classify ⟨[], silence, speech, inSp⟩ f =
      ((⟨[], 0, speech + 1, true⟩, none), [f]) := by
  have hfb : 0 < cfg.frame_size * 2 := by omega
  have hloop := vadLoop_single_frame cfg classify f silence speech inSp true hf hc
  simp only [updateCounters, if_true] at hloop
  rw [if_neg (by omega)] at hloop
  simp only [process_chunk, List.nil_append, hf, Nat.div_self hfb]
  rw [hloop]
  simp only [Nat.one_mul, ← hf, List.drop_length]

theorem process_chunk_silence_frame (cfg : VADConfig)
    (classify : List ℕ → Option Bool) (f : List ℕ) (silence speech : ℕ)
    (inSp : Bool) (hfs : 0 < cfg.frame_size) (hf : f.length = cfg.frame_size * 2)
    (hc : classify f = some false)
    (hcond : ¬(inSp = true ∧ cfg.eot_frames_threshold ≤ silence + 1)) :
    process_chunk cfg classify ⟨[], silence, speech, inSp⟩ f =
      ((⟨[], silence + 1, speech, inSp⟩, none), [f]) := by
  have hfb : 0 < cfg.frame_size * 2 := by omega
  have hloop := vadLoop_single_frame cfg classify f silence speech inSp false hf hc
  simp only [updateCounters, Bool.false_eq_true, if_false] at hloop
  rw [if_neg hcond] at hloop
  simp only [process_chunk, List.nil_append, hf, Nat.div_self hfb]
  rw [hloop]
  simp only [Nat.one_mul, ← hf, List.drop_length]

theorem process_chunk_silence_frame_eot (cfg : VADConfig)
    (classify : List ℕ → Option Bool) (f : List ℕ) (silence speech : ℕ)
    (inSp : Bool) (hfs : 0 < cfg.frame_size) (hf : f.length = cfg.frame_size * 2)
    (hc : classify f = some false) (hin : inSp = true)
    (hthr : cfg.eot_frames_threshold ≤ silence + 1) :
    process_chunk cfg classify ⟨[], silence, speech, inSp⟩ f =
      ((initState, some f), [f]) := by
  have hfb : 0 < cfg.frame_size * 2 := by omega
  have hloop := vadLoop_single_frame cfg classify f silence speech inSp false hf hc
  simp only [updateCounters, Bool.false_eq_true, if_false] at hloop
  rw [if_pos ⟨hin, hthr⟩] at hloop
  simp only [process_chunk, List.nil_append, hf, Nat.div_self hfb]
  rw [hloop]

theorem runChunks_nil (cfg : VADConfig) (classify : List ℕ → Option Bool)
    (st : VADState) : runChunks cfg classify st [] = (st, [], []) := rfl

theorem runChunks_cons (cfg : VADConfig) (classify : List ℕ → Option Bool)
    (st : VADState) (c : List ℕ) (cs : List (List ℕ)) :
    runChunks cfg classify st (c :: cs) =
      ((runChunks cfg classify (process_chunk cfg classify st c).1.1 cs).1,
       (process_chunk cfg classify st c).1.2 ::
         (runChunks cfg classify (process_chunk cfg classify st c).1.1 cs).2.1,
       (process_chunk cfg classify st c).2 ++
         (runChunks cfg classify (process_chunk cfg classify st c).1.1 cs).2.2) := rfl

theorem runChunks_silence_run (cfg : VADConfig) (classify : List ℕ → Option Bool)
    (zf : List ℕ) (hfs : 0 < cfg.frame_size) (hzf : zf.length = cfg.frame_size * 2)
    (hcz : classify zf = some false) :
    ∀ j silence speech, silence + (j + 1) = cfg.eot_frames_threshold →
    (runChunks cfg classify ⟨[], silence, speech, true⟩
        (List.replicate (j + 1) zf)).2.1 =
      List.replicate j none ++ [some zf] := by
  intro j
  induction j with
  | zero =>
    intro silence speech hsum
    rw [List.replicate_succ, List.replicate_zero, runChunks_cons,
      process_chunk_silence_frame_eot cfg classify zf silence speech true hfs hzf hcz
        rfl (by omega)]
    rfl
  | succ j ih =>
    intro silence speech hsum
    rw [List.replicate_succ, runChunks_cons,
      process_chunk_silence_frame cfg classify zf silence speech true hfs hzf hcz
        (by omega)]
    rw [ih (silence + 1) speech (by omega)]
    rfl

theorem run_speech_silences (cfg : VADConfig) (classify : List ℕ → Option Bool)
    (sf zf : List ℕ) (hfs : 0 < cfg.frame_size)
    (hT : 0 < cfg.eot_frames_threshold)
    (hsf : sf.length = cfg.frame_size * 2) (hzf : zf.length = cfg.frame_size * 2)
    (hcs : classify sf = some true) (hcz : classify zf = some false) :
    (runChunks cfg classify initState
        (sf :: List.replicate cfg.eot_frames_threshold zf)).2.1 =
      List.replicate cfg.eot_frames_threshold none ++ [some zf] := by
  obtain ⟨T', hT'⟩ : ∃ T', cfg.eot_frames_threshold = T' + 1 :=
    ⟨cfg.eot_frames_threshold - 1, by omega⟩
  rw [runChunks_cons]
  have hsp : process_chunk cfg classify initState sf =
      ((⟨[], 0, 0 + 1, true⟩, none), [sf]) :=
    process_chunk_speech_frame cfg classify sf 0 0 false hfs hsf hcs hT
  rw [hsp]
  simp only
  rw [hT', runChunks_silence_run cfg classify zf hfs hzf hcz T' 0 (0 + 1) (by omega),
    List.replicate_succ]
  rfl

theorem process_chunk_not_in_speech (cfg : VADConfig)
    (classify : List ℕ → Option Bool) (st : VADState) (c : List ℕ)
    (hsil : ∀ g, classify g = some false) (hst : st.in_speech = false) :
    (process_chunk cfg classify st c).1.1.in_speech = false ∧
    (process_chunk cfg classify st c).1.2 = none := by
  obtain ⟨s', p', tr, hl⟩ := vadLoop_all_silence cfg classify
    (st.audio_buffer ++ c) hsil
    ((st.audio_buffer ++ c).length / (cfg.frame_size * 2)) 0
    st.silence_frames st.speech_frames
  rw [← hst] at hl
  simp only [process_chunk]
  rw [hl]
  exact ⟨hst, rfl⟩

theorem runChunks_not_in_speech (cfg : VADConfig) (classify : List ℕ → Option Bool)
    (hsil : ∀ g, classify g = some false) :
    ∀ (chunks : List (List ℕ)) (st : VADState), st.in_speech = false →
    (runChunks cfg classify st chunks).1.in_speech = false := by
  intro chunks
  induction chunks with
  | nil => intro st hst; rw [runChunks_nil]; exact hst
  | cons c cs ih =>
    intro st hst
    rw [runChunks_cons]
    exact ih _ (process_chunk_not_in_speech cfg classify st c hsil hst).1

theorem slicesFrom_add (fb : ℕ) (buf : List ℕ) (i a b : ℕ) :
    slicesFrom fb buf i (a + b) =
      slicesFrom fb buf i a ++ slicesFrom fb buf (i + a) b := by
  simp only [slicesFrom, List.range_add, List.map_append, List.map_map]
  refine congrArg _ (List.map_congr_left fun j hj => ?_)
  simp only [Function.comp_apply]
  congr 1
  omega

theorem sliceAt_append_left (fb : ℕ) (s t : List ℕ) (j : ℕ)
    (h : (j + 1) * fb ≤ s.length) :
    sliceAt fb (s ++ t) j = sliceAt fb s j := by
  rw [Nat.succ_mul] at h
  unfold sliceAt
  rw [List.drop_append_of_le_length (by omega),
    List.take_append_of_le_length (by simp only [List.length_drop]; omega)]

theorem sliceAt_shift (fb : ℕ) (s t : List ℕ) (q j : ℕ)
    (hq : q * fb ≤ s.length) :
    sliceAt fb (s ++ t) (q + j) = sliceAt fb (s.drop (q * fb) ++ t) j := by
  unfold sliceAt
  rw [show (q + j) * fb = q * fb + j * fb by ring, ← List.drop_drop,
    List.drop_append_of_le_length hq]

theorem chunkFrames_append (fb : ℕ) (hfb : 0 < fb) (s t : List ℕ) :
    chunkFrames fb (s ++ t) =
      chunkFrames fb s ++ chunkFrames fb (s.drop (s.length / fb * fb) ++ t) := by
  have hq : s.length / fb * fb ≤ s.length := Nat.div_mul_le_self _ _
  have hlen2 : (s.drop (s.length / fb * fb) ++ t).length =
      (s.length - s.length / fb * fb) + t.length := by
    simp [List.length_drop]
  have hdm := Nat.div_add_mod s.length fb
  have hcm : fb * (s.length / fb) = s.length / fb * fb := Nat.mul_comm _ _
  have hmod : s.length - s.length / fb * fb = s.length % fb := by omega
  have hdiv : (s ++ t).length / fb =
      s.length / fb + (s.drop (s.length / fb * fb) ++ t).length / fb := by
    rw [hlen2, List.length_append, hmod]
    have e1 : s.length + t.length =
        s.length % fb + t.length + s.length / fb * fb := by omega
    rw [e1, Nat.add_mul_div_right _ _ hfb]
    exact Nat.add_comm _ _
  unfold chunkFrames
  rw [hdiv, slicesFrom_add]
  congr 1
  · -- the slices inside s
    unfold slicesFrom
    refine List.map_congr_left fun j hj => ?_
    rw [List.mem_range] at hj
    simp only [Nat.zero_add]
    refine sliceAt_append_left fb s t j ?_
    calc (j + 1) * fb ≤ s.length / fb * fb := Nat.mul_le_mul_right _ (by omega)
    _ ≤ s.length := hq
  · -- the slices crossing into t
    unfold slicesFrom
    refine List.map_congr_left fun j hj => ?_
    simp only [Nat.zero_add]
    exact sliceAt_shift fb s t (s.length / fb) j hq

theorem runChunks_trace_total (cfg : VADConfig) (classify : List ℕ → Option Bool)
    (hfb : 0 < cfg.frame_size) (htot : ∀ g, classify g ≠ none) :
    ∀ (chunks : List (List ℕ)) (st : VADState),
    st.audio_buffer.length < cfg.frame_size * 2 →
    (∀ o ∈ (runChunks cfg classify st chunks).2.1, o = none) →
    (runChunks cfg classify st chunks).2.2 =
      chunkFrames (cfg.frame_size * 2) (st.audio_buffer ++ chunks.flatten) := by
  intro chunks
  induction chunks with
  | nil =>
    intro st hlen _
    rw [runChunks_nil]
    simp only [List.flatten_nil, List.append_nil]
    unfold chunkFrames
    rw [Nat.div_eq_of_lt hlen]
    rfl
  | cons c cs ih =>
    intro st hlen houts
    rw [runChunks_cons] at houts ⊢
    have h1 : (process_chunk cfg classify st c).1.2 = none :=
      houts _ (List.mem_cons_self _ _)
    have htail : ∀ o ∈ (runChunks cfg classify
        (process_chunk cfg classify st c).1.1 cs).2.1, o = none :=
      fun o ho => houts o (List.mem_cons_of_mem _ ho)
    obtain ⟨htr, hbuf⟩ := process_chunk_none_total cfg classify st c htot h1
    have hfb2 : 0 < cfg.frame_size * 2 := by omega
    have hlen' : (process_chunk cfg classify st c).1.1.audio_buffer.length <
        cfg.frame_size * 2 := by
      rw [hbuf]
      simp only [List.length_drop]
      have hdm := Nat.div_add_mod (st.audio_buffer ++ c).length (cfg.frame_size * 2)
      have hcm : cfg.frame_size * 2 * ((st.audio_buffer ++ c).length / (cfg.frame_size * 2)) =
          (st.audio_buffer ++ c).length / (cfg.frame_size * 2) * (cfg.frame_size * 2) :=
        Nat.mul_comm _ _
      have hm := Nat.mod_lt (st.audio_buffer ++ c).length hfb2
      omega
    rw [htr, ih _ hlen' htail, hbuf, List.flatten_cons, ← List.append_assoc]
    exact (chunkFrames_append (cfg.frame_size * 2) hfb2 (st.audio_buffer ++ c)
      cs.flatten).symm

theorem process_chunk_trace (cfg : VADConfig) (classify : List ℕ → Option Bool)
    (st : VADState) (c : List ℕ) :
    (process_chunk cfg classify st c).2 =
      (vadLoop cfg classify (st.audio_buffer ++ c) 0
        ((st.audio_buffer ++ c).length / (cfg.frame_size * 2))
        st.silence_frames st.speech_frames st.in_speech).2 := by
  cases hv : vadLoop cfg classify (st.audio_buffer ++ c) 0
      ((st.audio_buffer ++ c).length / (cfg.frame_size * 2))
      st.silence_frames st.speech_frames st.in_speech with
  | mk out tr =>
    cases out <;> (simp only [process_chunk]; rw [hv])

theorem eot_frames_threshold_div (fd : ℕ) :
    eot_frames_threshold fd = 1500 / fd := by
  unfold eot_frames_threshold eot_silence_threshold
  have h : (1.5 : ℚ) * 1000 / (fd : ℚ) = ((1500 : ℕ) : ℚ) / ((fd : ℕ) : ℚ) := by
    norm_num
  rw [h, Nat.floor_div_nat, Nat.floor_natCast]

theorem frame_size_div (sr fd : ℕ) : frame_size sr fd = sr * fd / 1000 := by
  unfold frame_size
  have h : ((sr : ℚ)) * (fd : ℚ) / 1000 =
      ((sr * fd : ℕ) : ℚ) / ((1000 : ℕ) : ℚ) := by
    push_cast
    ring
  rw [h, Nat.floor_div_nat, Nat.floor_natCast]

-- ===================================================================
-- Claim theorems
-- ===================================================================

/-- Claim C2, counterexample: after one frame classified as speech and one
frame classified as silence (config: frame_size 1, threshold 5, starting
from the initial state), speech_frames is 1, not the 0 the claim requires
of a frame classified as silence.  The code (lines 81-83) increments
silence_frames on a silence frame but never resets speech_frames. -/
theorem claim_C2_counterexample :
    (process_chunk ⟨1, 5⟩ demoClassify initState [1, 1, 0, 0]).1.1.speech_frames = 1 ∧
    ¬(process_chunk ⟨1, 5⟩ demoClassify initState [1, 1, 0, 0]).1.1.speech_frames = 0 := by
  decide

/-- Claim C2, amended: for a single complete classified frame, a speech
frame sets silence_frames to 0, increments speech_frames and sets in_speech;
a silence frame increments silence_frames and leaves speech_frames and
in_speech unchanged (so speech_frames is a cumulative total over the
utterance, not a consecutive run length, while silence_frames is a
consecutive run length). -/
theorem claim_C2_amended (cfg : VADConfig) (classify : List ℕ → Option Bool)
    (f : List ℕ) (silence speech : ℕ) (inSp : Bool)
    (hfs : 0 < cfg.frame_size) (hf : f.length = cfg.frame_size * 2) :
    (classify f = some true → 0 < cfg.eot_frames_threshold →
      (process_chunk cfg classify ⟨[], silence, speech, inSp⟩ f).1.1.silence_frames = 0 ∧
      (process_chunk cfg classify ⟨[], silence, speech, inSp⟩ f).1.1.speech_frames = speech + 1 ∧
      (process_chunk cfg classify ⟨[], silence, speech, inSp⟩ f).1.1.in_speech = true) ∧
    (classify f = some false →
      ¬(inSp = true ∧ cfg.eot_frames_threshold ≤ silence + 1) →
      (process_chunk cfg classify ⟨[], silence, speech, inSp⟩ f).1.1.silence_frames = silence + 1 ∧
      (process_chunk cfg classify ⟨[], silence, speech, inSp⟩ f).1.1.speech_frames = speech ∧
      (process_chunk cfg classify ⟨[], silence, speech, inSp⟩ f).1.1.in_speech = inSp) := by
  constructor
  · intro hc hT
    rw [process_chunk_speech_frame cfg classify f silence speech inSp hfs hf hc hT]
    exact ⟨rfl, rfl, rfl⟩
  · intro hc hcond
    rw [process_chunk_silence_frame cfg classify f silence speech inSp hfs hf hc hcond]
    exact ⟨rfl, rfl, rfl⟩

theorem claim_C2_amended_witness :
    ((process_chunk ⟨1, 5⟩ demoClassify ⟨[], 0, 0, false⟩ [1, 1]).1.1.silence_frames = 0 ∧
     (process_chunk ⟨1, 5⟩ demoClassify ⟨[], 0, 0, false⟩ [1, 1]).1.1.speech_frames = 0 + 1 ∧
     (process_chunk ⟨1, 5⟩ demoClassify ⟨[], 0, 0, false⟩ [1, 1]).1.1.in_speech = true) ∧
    ((process_chunk ⟨1, 5⟩ demoClassify ⟨[], 3, 7, true⟩ [0, 0]).1.1.silence_frames = 3 + 1 ∧
     (process_chunk ⟨1, 5⟩ demoClassify ⟨[], 3, 7, true⟩ [0, 0]).1.1.speech_frames = 7 ∧
     (process_chunk ⟨1, 5⟩ demoClassify ⟨[], 3, 7, true⟩ [0, 0]).1.1.in_speech = true) :=
  ⟨(claim_C2_amended ⟨1, 5⟩ demoClassify [1, 1] 0 0 false (by decide) (by decide)).1
      (by decide) (by decide),
   (claim_C2_amended ⟨1, 5⟩ demoClassify [0, 0] 3 7 true (by decide) (by decide)).2
      (by decide) (by decide)⟩

/-- Claim C3: with eot_frames_threshold = T greater than 0, feeding (from a
fresh session) one frame classified as speech and then T frames classified
as silence, one frame per call, every call up to and including the one
with the (T-1)th silence frame returns no payload, and the call with the
Tth consecutive silence frame returns a payload: the outputs of the T+1
calls are exactly T nones followed by one payload. -/
theorem claim_C3 (cfg : VADConfig) (classify : List ℕ → Option Bool)
    (sf zf : List ℕ) (hfs : 0 < cfg.frame_size)
    (hT : 0 < cfg.eot_frames_threshold)
    (hsf : sf.length = cfg.frame_size * 2) (hzf : zf.length = cfg.frame_size * 2)
    (hcs : classify sf = some true) (hcz : classify zf = some false) :
    (runChunks cfg classify initState
        (sf :: List.replicate cfg.eot_frames_threshold zf)).2.1 =
      List.replicate cfg.eot_frames_threshold none ++ [some zf] :=
  run_speech_silences cfg classify sf zf hfs hT hsf hzf hcs hcz

theorem claim_C3_witness :
    (runChunks ⟨1, 2⟩ demoClassify initState
        ([1, 1] :: List.replicate 2 [0, 0])).2.1 =
      List.replicate 2 none ++ [some [0, 0]] :=
  claim_C3 ⟨1, 2⟩ demoClassify [1, 1] [0, 0] (by decide) (by decide) (by decide)
    (by decide) (by decide) (by decide)

/-- Claim C5: whenever process_chunk returns a payload, the new state is the
initial state (no bytes of the chunk survive into the next utterance), the
payload is the entire pending buffer plus the entire chunk, and the slices
handed to the classifier in that call form a prefix of the complete frame
windows of that byte string: frames after the one that produced EoT are
never presented to the classifier. -/
theorem claim_C5 (cfg : VADConfig) (classify : List ℕ → Option Bool)
    (st : VADState) (chunk : List ℕ) (p : List ℕ)
    (h : (process_chunk cfg classify st chunk).1.2 = some p) :
    (process_chunk cfg classify st chunk).1.1 = initState ∧
    p = st.audio_buffer ++ chunk ∧
    ∃ j, 1 ≤ j ∧
      j ≤ (st.audio_buffer ++ chunk).length / (cfg.frame_size * 2) ∧
      (process_chunk cfg classify st chunk).2 =
        slicesFrom (cfg.frame_size * 2) (st.audio_buffer ++ chunk) 0 j :=
  process_chunk_some cfg classify st chunk p h

theorem claim_C5_witness :
    (process_chunk ⟨1, 1⟩ demoClassify initState [1, 1, 0, 0, 9, 9]).1.1 = initState ∧
    (process_chunk ⟨1, 1⟩ demoClassify initState [1, 1, 0, 0, 9, 9]).2 = [[1, 1], [0, 0]] :=
  ⟨(claim_C5 ⟨1, 1⟩ demoClassify initState [1, 1, 0, 0, 9, 9] [1, 1, 0, 0, 9, 9]
      (by decide)).1, by decide⟩

/-- Claim C6, counterexample: for frame_duration 16 the stored threshold is
int(1500 / 16) = 93, while rounding to the nearest integer gives
round(93.75) = 94, so the derived threshold is truncated, not rounded. -/
theorem claim_C6_counterexample :
    eot_frames_threshold 16 = 93 ∧ round ((1500 : ℚ) / 16) = 94 ∧ (93 : ℕ) ≠ 94 := by
  refine ⟨?_, ?_, by decide⟩
  · rw [eot_frames_threshold_div]
  · rw [round_eq, show (1500 : ℚ) / 16 + 1 / 2 = 377 / 4 by norm_num,
      Int.floor_eq_iff]
    constructor <;> norm_num

/-- Claim C6, amended: the derived threshold equals the quotient
eot_silence_seconds * 1000 / frame_duration truncated to an integer (floor
division), not rounded to the nearest integer; for frame durations dividing
1500 evenly, such as the webrtcvad-supported 10, 20 and 30 ms, the two
coincide. -/
theorem claim_C6_amended (fd : ℕ) : eot_frames_threshold fd = 1500 / fd :=
  eot_frames_threshold_div fd

/-- Claim C8: whenever an EoT payload is produced, in band by process_chunk
or by force_eot, the state observed through get_state afterwards is the
initial one: buffer_size 0, both counters 0, in_speech false. -/
theorem claim_C8 (cfg : VADConfig) (classify : List ℕ → Option Bool)
    (st : VADState) (chunk : List ℕ) :
    (∀ p, (process_chunk cfg classify st chunk).1.2 = some p →
      get_state cfg (process_chunk cfg classify st chunk).1.1 =
        ⟨0, 0, 0, false, cfg.eot_frames_threshold⟩) ∧
    (∀ q, (force_eot st).2 = some q →
      get_state cfg (force_eot st).1 = ⟨0, 0, 0, false, cfg.eot_frames_threshold⟩) := by
  constructor
  · intro p hp
    rw [(process_chunk_some cfg classify st chunk p hp).1]
    rfl
  · intro q hq
    unfold force_eot at hq ⊢
    by_cases h : st.in_speech = true ∧ 0 < st.audio_buffer.length
    · rw [if_pos h]
      rfl
    · rw [if_neg h] at hq
      exact absurd hq (by simp)

theorem claim_C8_witness :
    get_state ⟨1, 1⟩ (process_chunk ⟨1, 1⟩ demoClassify initState [1, 1, 0, 0]).1.1 =
      ⟨0, 0, 0, false, 1⟩ ∧
    get_state ⟨1, 1⟩ (force_eot ⟨[5], 0, 0, true⟩).1 = ⟨0, 0, 0, false, 1⟩ :=
  ⟨(claim_C8 ⟨1, 1⟩ demoClassify initState [1, 1, 0, 0]).1 [1, 1, 0, 0] (by decide),
   (claim_C8 ⟨1, 1⟩ demoClassify ⟨[5], 0, 0, true⟩ []).2 [5] (by decide)⟩

/-- Claim C9: if the classifier raises while some frame of the chunk is
being classified (the loop ends in excRaised), process_chunk swallows the
error and returns no payload, and the resulting state still holds every
byte received (the whole pending buffer plus the whole chunk), so no data
is lost and the session continues. -/
theorem claim_C9 (cfg : VADConfig) (classify : List ℕ → Option Bool)
    (st : VADState) (chunk : List ℕ) (s p : ℕ) (b : Bool) (tr : List (List ℕ))
    (h : vadLoop cfg classify (st.audio_buffer ++ chunk) 0
        ((st.audio_buffer ++ chunk).length / (cfg.frame_size * 2))
        st.silence_frames st.speech_frames st.in_speech = (.excRaised s p b, tr)) :
    (process_chunk cfg classify st chunk).1 =
      (⟨st.audio_buffer ++ chunk, s, p, b⟩, none) := by
  simp only [process_chunk]
  rw [h]

theorem claim_C9_witness :
    (process_chunk ⟨1, 5⟩ (fun f => if f.headD 0 == 7 then none else some false)
        initState [7, 7]).1 = (⟨[7, 7], 0, 0, false⟩, none) :=
  claim_C9 ⟨1, 5⟩ (fun f => if f.headD 0 == 7 then none else some false)
    initState [7, 7] 0 0 false [[7, 7]] (by decide)

/-- Claim C10: every byte slice that process_chunk extracts for
classification has length exactly frame_size * 2, so the in-loop guard
that skips slices of any other length never fires and no undersized
trailing data is ever classified. -/
theorem claim_C10 (cfg : VADConfig) (classify : List ℕ → Option Bool)
    (st : VADState) (chunk : List ℕ) (f : List ℕ)
    (hf : f ∈ (process_chunk cfg classify st chunk).2) :
    f.length = cfg.frame_size * 2 := by
  rw [process_chunk_trace] at hf
  obtain ⟨k, hk, hfk⟩ := vadLoop_mem_trace cfg classify _ _ _ _ _ _ f hf
  rw [hfk]
  refine length_sliceAt _ _ _ ?_
  have h1 := Nat.div_mul_le_self (st.audio_buffer ++ chunk).length (cfg.frame_size * 2)
  have h2 : 0 + k + 1 ≤ (st.audio_buffer ++ chunk).length / (cfg.frame_size * 2) := by
    omega
  calc (0 + k + 1) * (cfg.frame_size * 2)
      ≤ (st.audio_buffer ++ chunk).length / (cfg.frame_size * 2) * (cfg.frame_size * 2) :=
        Nat.mul_le_mul_right _ h2
    _ ≤ (st.audio_buffer ++ chunk).length := h1

theorem claim_C10_witness :
    ([0, 0] : List ℕ).length = (⟨1, 5⟩ : VADConfig).frame_size * 2 :=
  claim_C10 ⟨1, 5⟩ demoClassify initState [0, 0, 0] [0, 0] (by decide)

/-- Claim C1, failing-input evaluation: with the default session parameters
(16 kHz, 30 ms frames, so 960-byte frames and threshold 50), feeding one
960-byte frame classified as speech and then fifty 960-byte frames
classified as silence, one frame per process_chunk call, the payload
returned on the 51st call is just the last silence frame: 960 bytes, not
the 48960 bytes (51 frames) the claim requires.  Lines 94-96 remove the
processed frames from audio_buffer on every call that does not fire EoT,
so the buffer returned at EoT only contains what arrived since the last
non-EoT call, not everything since the last reset. -/
theorem claim_C1_failing_eval :
    (runChunks (mkStreamer 16000 30) demoClassify initState
        (List.replicate 960 1 :: List.replicate 50 (List.replicate 960 0))).2.1.getLast?
      = some (some (List.replicate 960 0)) ∧
    (List.replicate 960 0 : List ℕ).length = 960 ∧ (960 : ℕ) ≠ 48960 := by
  have hcfg : mkStreamer 16000 30 = ⟨480, 50⟩ := by
    rw [mkStreamer, frame_size_div, eot_frames_threshold_div]
  rw [hcfg]
  have hrun : (runChunks ⟨480, 50⟩ demoClassify initState
      (List.replicate 960 1 :: List.replicate 50 (List.replicate 960 0))).2.1 =
      List.replicate 50 none ++ [some (List.replicate 960 0)] :=
    run_speech_silences ⟨480, 50⟩ demoClassify
      (List.replicate 960 1) (List.replicate 960 0)
      (by decide) (by decide) (by simp) (by simp) rfl rfl
  rw [hrun, List.getLast?_concat]
  exact ⟨rfl, by simp, by decide⟩

/-- Claim C4: frame assembly is invariant under re-chunking.  For any list
of chunks fed to a fresh session, as long as the classifier never raises
and no call fires EoT, the slices handed to the classifier across all the
calls are exactly the complete fixed-size frame windows of the concatenated
byte stream, in order: the trace depends only on the concatenation of the
chunks, not on how it was split. -/
theorem claim_C4 (cfg : VADConfig) (classify : List ℕ → Option Bool)
    (chunks : List (List ℕ)) (hfb : 0 < cfg.frame_size)
    (htot : ∀ g, classify g ≠ none)
    (hnoeot : ∀ o ∈ (runChunks cfg classify initState chunks).2.1, o = none) :
    (runChunks cfg classify initState chunks).2.2 =
      chunkFrames (cfg.frame_size * 2) chunks.flatten := by
  have h := runChunks_trace_total cfg classify hfb htot chunks initState
    (by simp [initState]; omega) hnoeot
  simpa [initState] using h

theorem claim_C4_witness :
    (runChunks ⟨1, 99⟩ (fun _ => some false) initState [[1, 2, 3], [4, 5, 6]]).2.2 =
      chunkFrames ((⟨1, 99⟩ : VADConfig).frame_size * 2)
        ([[1, 2, 3], [4, 5, 6]] : List (List ℕ)).flatten :=
  claim_C4 ⟨1, 99⟩ (fun _ => some false) [[1, 2, 3], [4, 5, 6]] (by decide)
    (fun g => by simp) (by decide)

/-- Claim C7: force_eot returns the accumulated buffer exactly when
in_speech is true and the buffer is non-empty, and always resets the state;
in particular, after any sequence of chunks whose frames are all classified
as silence, in_speech is still false and force_eot returns no payload. -/
theorem claim_C7 :
    (∀ st : VADState, force_eot st =
      (initState,
        if st.in_speech = true ∧ st.audio_buffer ≠ [] then some st.audio_buffer
        else none)) ∧
    (∀ (cfg : VADConfig) (classify : List ℕ → Option Bool)
        (chunks : List (List ℕ)), (∀ g, classify g = some false) →
      (runChunks cfg classify initState chunks).1.in_speech = false ∧
      (force_eot (runChunks cfg classify initState chunks).1).2 = none) := by
  constructor
  · intro st
    unfold force_eot
    by_cases h : st.in_speech = true ∧ 0 < st.audio_buffer.length
    · rw [if_pos h, if_pos ⟨h.1, List.length_pos.mp h.2⟩]
    · rw [if_neg h, if_neg (fun hc => h ⟨hc.1, List.length_pos.mpr hc.2⟩)]
  · intro cfg classify chunks hsil
    have hin := runChunks_not_in_speech cfg classify hsil chunks initState rfl
    refine ⟨hin, ?_⟩
    unfold force_eot
    rw [if_neg (fun hc => by rw [hin] at hc; exact Bool.false_ne_true hc.1)]

theorem claim_C7_witness :
    force_eot ⟨[1, 2], 0, 0, true⟩ = (initState, some [1, 2]) ∧
    (force_eot (runChunks ⟨1, 2⟩ (fun _ => some false) initState
        [[0, 0], [0, 0, 0]]).1).2 = none := by
  constructor
  · have h := claim_C7.1 ⟨[1, 2], 0, 0, true⟩
    simpa using h
  · exact (claim_C7.2 ⟨1, 2⟩ (fun _ => some false) [[0, 0], [0, 0, 0]]
      (fun g => rfl)).2
